import Mathlib

/-!
Verification of the payments-engine ledger (src/main.rs, src/accounts.rs,
src/transactions.rs, src/custom_errors.rs).

The engine state of `process_csv` consists of
  * `account_balances : BTreeMap<u16, AccountBalance>`, modelled as an
    association list kept in ascending key order (as a B-tree iterates);
  * `deposit_transaction_amounts : HashMap<u32, f32>`, modelled as an
    association list with overwrite-on-insert;
  * `disputed_transactions : Vec<u32>`, modelled as a list with push = append.

Monetary amounts (`f32` in the source) are modelled as exact rationals `Rat`:
every claim under study is about which additions, subtractions, comparisons
and control paths the code performs, not about rounding of any particular
floating-point value. Client ids (`u16`) and transaction ids (`u32`) are
modelled as `Nat`; the code never computes on them, so no overflow arises.
-/

/-- Model of `AccountBalance` from src/accounts.rs. -/
structure AccountBalance where
  client : Nat
  available : Rat
  held : Rat
  locked : Bool
deriving DecidableEq, Repr

/-- Model of `TransactionType` from src/transactions.rs. -/
inductive TransactionType where
  | Deposit
  | Withdrawal
  | Dispute
  | Resolve
  | Chargeback
deriving DecidableEq, Repr

/-- Model of `Transaction` from src/transactions.rs. -/
structure Transaction where
  tx_type : TransactionType
  client_id : Nat
  tx_id : Nat
  amount : Option Rat
deriving DecidableEq, Repr

/-- Model of `TransactionErrorType` from src/custom_errors.rs. -/
inductive TransactionErrorType where
  | NoDepositAmount
  | NoWithdrawalAmount
deriving DecidableEq, Repr

/-- Lookup in the account table (`BTreeMap::entry` / occupied case). -/
def getAccount : List (Nat × AccountBalance) → Nat → Option AccountBalance
  | [], _ => none
  | (k, v) :: rest, c => if k = c then some v else getAccount rest c

/-- Insert-or-replace in the account table, keeping ascending key order as a
`BTreeMap` does. -/
def setAccount : List (Nat × AccountBalance) → Nat → AccountBalance → List (Nat × AccountBalance)
  | [], c, v => [(c, v)]
  | (k, w) :: rest, c, v =>
    if c < k then (c, v) :: (k, w) :: rest
    else if k = c then (c, v) :: rest
    else (k, w) :: setAccount rest c v

/-- Lookup in the deposit index (`HashMap::get`). -/
def depositLookup : List (Nat × Rat) → Nat → Option Rat
  | [], _ => none
  | (k, v) :: rest, tx => if k = tx then some v else depositLookup rest tx

/-- Insert in the deposit index (`HashMap::insert`), overwriting any prior
entry for the same key. -/
def depositInsert : List (Nat × Rat) → Nat → Rat → List (Nat × Rat)
  | [], tx, a => [(tx, a)]
  | (k, v) :: rest, tx, a =>
    if k = tx then (tx, a) :: rest else (k, v) :: depositInsert rest tx a

/-- The whole mutable state of `process_csv` (src/main.rs lines 22-27). -/
structure EngineState where
  account_balances : List (Nat × AccountBalance)
  deposit_transaction_amounts : List (Nat × Rat)
  disputed_transactions : List Nat
deriving DecidableEq, Repr

/-- The `match transaction.tx_type` dispatch of `process_csv`
(src/main.rs lines 57-130), after the account for `t.client_id` has been
looked up or created: `b` is the balance of that account and `base` is the account
table with the entry for `t.client_id` present. -/
def applyUnlocked (s : EngineState) (t : Transaction) (b : AccountBalance)
    (base : List (Nat × AccountBalance)) : Except TransactionErrorType EngineState :=
  match t.tx_type with
  | .Deposit =>
    match t.amount with
    | some amount =>
      .ok ⟨setAccount base t.client_id { b with available := b.available + amount },
           depositInsert s.deposit_transaction_amounts t.tx_id amount,
           s.disputed_transactions⟩
    | none => .error .NoDepositAmount
  | .Withdrawal =>
    match t.amount with
    | some amount =>
      let new_balance := b.available - amount
      if new_balance ≥ 0 then
        .ok ⟨setAccount base t.client_id { b with available := new_balance },
             s.deposit_transaction_amounts, s.disputed_transactions⟩
      else
        .ok ⟨base, s.deposit_transaction_amounts, s.disputed_transactions⟩
    | none => .error .NoWithdrawalAmount
  | .Dispute =>
    match depositLookup s.deposit_transaction_amounts t.tx_id with
    | some amount =>
      .ok ⟨setAccount base t.client_id
             { b with available := b.available - amount, held := b.held + amount },
           s.deposit_transaction_amounts,
           s.disputed_transactions ++ [t.tx_id]⟩
    | none =>
      .ok ⟨base, s.deposit_transaction_amounts, s.disputed_transactions⟩
  | .Resolve =>
    if s.disputed_transactions.contains t.tx_id then
      match depositLookup s.deposit_transaction_amounts t.tx_id with
      | some amount =>
        .ok ⟨setAccount base t.client_id
               { b with available := b.available + amount, held := b.held - amount },
             s.deposit_transaction_amounts, s.disputed_transactions⟩
      | none =>
        .ok ⟨base, s.deposit_transaction_amounts, s.disputed_transactions⟩
    else
      .ok ⟨base, s.deposit_transaction_amounts, s.disputed_transactions⟩
  | .Chargeback =>
    if s.disputed_transactions.contains t.tx_id then
      match depositLookup s.deposit_transaction_amounts t.tx_id with
      | some amount =>
        .ok ⟨setAccount base t.client_id
               { b with held := b.held - amount, locked := true },
             s.deposit_transaction_amounts, s.disputed_transactions⟩
      | none =>
        .ok ⟨base, s.deposit_transaction_amounts, s.disputed_transactions⟩
    else
      .ok ⟨base, s.deposit_transaction_amounts, s.disputed_transactions⟩

/-- One iteration of the `for transaction_record in rdr.deserialize()` loop of
`process_csv` (src/main.rs lines 39-130): look up or create the account for
`t.client_id` (a fresh account starts at `available = 0, held = 0,
locked = false`), skip the record entirely when the account is locked, and
otherwise dispatch on the transaction kind. -/
def applyTransaction (s : EngineState) (t : Transaction) :
    Except TransactionErrorType EngineState :=
  match getAccount s.account_balances t.client_id with
  | some b =>
    if b.locked then .ok s
    else applyUnlocked s t b s.account_balances
  | none =>
    applyUnlocked s t ⟨t.client_id, 0, 0, false⟩
      (setAccount s.account_balances t.client_id ⟨t.client_id, 0, 0, false⟩)

/-- The full record-processing loop of `process_csv`: the first error aborts
the stream. -/
def processTransactions (s : EngineState) :
    List Transaction → Except TransactionErrorType EngineState
  | [] => .ok s
  | t :: ts =>
    match applyTransaction s t with
    | .ok s2 => processTransactions s2 ts
    | .error e => .error e

/-- The state at the start of `process_csv`: all three containers empty. -/
def initialState : EngineState := ⟨[], [], []⟩

/-- The clients listed in the final output of `process_csv`
(src/main.rs lines 134-139): one line per entry of `account_balances`,
in table order. -/
def outputClients (s : EngineState) : List Nat :=
  s.account_balances.map Prod.fst

/-- A state is reachable when some input stream produces it from the initial
state without a fatal error. -/
def Reachable (s : EngineState) : Prop :=
  ∃ ts : List Transaction, processTransactions initialState ts = .ok s

/-- Every disputed transaction id still has an entry in the deposit index. -/
def DisputedCovered (s : EngineState) : Prop :=
  ∀ tx ∈ s.disputed_transactions,
    (depositLookup s.deposit_transaction_amounts tx).isSome = true

/-- Example state: client 1 after a single deposit of 5 under `tx_id` 1. -/
def sOneDeposit : EngineState := ⟨[(1, ⟨1, 5, 0, false⟩)], [(1, 5)], []⟩

/-- Example state: client 1 after deposit of 1 (tx 1), dispute, chargeback —
the account is locked. -/
def sLockedExample : EngineState := ⟨[(1, ⟨1, 0, 0, true⟩)], [(1, 1)], [1]⟩

/-- Example state: client 1 after a deposit of 1 under tx 1 and a dispute of
tx 1. -/
def sDisputedExample : EngineState := ⟨[(1, ⟨1, 0, 1, false⟩)], [(1, 1)], [1]⟩

/-- Example state: client 1 after deposit 1 (tx 1), dispute, resolve — tx 1 is
still recorded as disputed. -/
def sResolvedOnce : EngineState := ⟨[(1, ⟨1, 1, 0, false⟩)], [(1, 1)], [1]⟩

/-- Example state: client 1 deposited 5 under tx 1; client 2 exists with an
empty balance. -/
def sTwoClients : EngineState :=
  ⟨[(1, ⟨1, 5, 0, false⟩), (2, ⟨2, 0, 0, false⟩)], [(1, 5)], []⟩

/-! ### Lemmas about the container models -/

theorem getAccount_setAccount_self (m : List (Nat × AccountBalance)) (c : Nat)
    (v : AccountBalance) : getAccount (setAccount m c v) c = some v := by
  induction m with
  | nil => simp [setAccount, getAccount]
  | cons p rest ih =>
    obtain ⟨k, w⟩ := p
    by_cases h1 : c < k
    · simp [setAccount, getAccount, h1]
    · by_cases h2 : k = c
      · simp [setAccount, getAccount, h1, h2]
      · simp [setAccount, getAccount, h1, h2, ih]

theorem getAccount_setAccount_ne (m : List (Nat × AccountBalance)) (c c2 : Nat)
    (v : AccountBalance) (h : c ≠ c2) :
    getAccount (setAccount m c v) c2 = getAccount m c2 := by
  induction m with
  | nil => simp [setAccount, getAccount, h]
  | cons p rest ih =>
    obtain ⟨k, w⟩ := p
    by_cases h1 : c < k
    · simp [setAccount, getAccount, h1, h]
    · by_cases h2 : k = c
      · subst h2
        simp [setAccount, getAccount, h1, h]
      · simp only [setAccount, if_neg h1, if_neg h2]
        by_cases h3 : k = c2
        · simp [getAccount, h3]
        · simp [getAccount, h3, ih]

theorem setAccount_setAccount_self (m : List (Nat × AccountBalance)) (c : Nat)
    (v w : AccountBalance) : setAccount (setAccount m c v) c w = setAccount m c w := by
  induction m with
  | nil => simp [setAccount]
  | cons p rest ih =>
    obtain ⟨k, u⟩ := p
    by_cases h1 : c < k
    · simp [setAccount, h1, lt_irrefl]
    · by_cases h2 : k = c
      · subst h2
        simp [setAccount, h1, lt_irrefl]
      · simp [setAccount, h1, h2, ih]

theorem getAccount_eq_none_iff (m : List (Nat × AccountBalance)) (c : Nat) :
    getAccount m c = none ↔ c ∉ m.map Prod.fst := by
  induction m with
  | nil => simp [getAccount]
  | cons p rest ih =>
    obtain ⟨k, w⟩ := p
    by_cases h : k = c
    · simp [getAccount, h]
    · simp [getAccount, h, ih, Ne.symm h]

theorem keys_setAccount_mono (m : List (Nat × AccountBalance)) (c c2 : Nat)
    (v : AccountBalance) (h : c2 ∈ m.map Prod.fst) :
    c2 ∈ (setAccount m c v).map Prod.fst := by
  by_contra hmem
  rw [← getAccount_eq_none_iff] at hmem
  by_cases hc : c = c2
  · subst hc
    rw [getAccount_setAccount_self] at hmem
    exact Option.noConfusion hmem
  · rw [getAccount_setAccount_ne m c c2 v hc] at hmem
    rw [getAccount_eq_none_iff] at hmem
    exact hmem h

theorem depositLookup_depositInsert_self (m : List (Nat × Rat)) (tx : Nat) (a : Rat) :
    depositLookup (depositInsert m tx a) tx = some a := by
  induction m with
  | nil => simp [depositInsert, depositLookup]
  | cons p rest ih =>
    obtain ⟨k, v⟩ := p
    by_cases h : k = tx
    · simp [depositInsert, depositLookup, h]
    · simp [depositInsert, depositLookup, h, ih]

theorem depositLookup_depositInsert_ne (m : List (Nat × Rat)) (tx tx2 : Nat) (a : Rat)
    (h : tx ≠ tx2) : depositLookup (depositInsert m tx a) tx2 = depositLookup m tx2 := by
  induction m with
  | nil => simp [depositInsert, depositLookup, h]
  | cons p rest ih =>
    obtain ⟨k, v⟩ := p
    by_cases h1 : k = tx
    · subst h1
      simp [depositInsert, depositLookup, h]
    · by_cases h2 : k = tx2
      · simp [depositInsert, depositLookup, h1, h2, Ne.symm h]
      · simp [depositInsert, depositLookup, h1, h2, ih]
theorem applyUnlocked_ok_cases (s : EngineState) (t : Transaction) (b : AccountBalance)
    (base : List (Nat × AccountBalance)) (s2 : EngineState)
    (h : applyUnlocked s t b base = .ok s2) :
    (s2.account_balances = base ∨ ∃ v, s2.account_balances = setAccount base t.client_id v) ∧
    (s2.deposit_transaction_amounts = s.deposit_transaction_amounts ∨
      ∃ a, t.amount = some a ∧
        s2.deposit_transaction_amounts = depositInsert s.deposit_transaction_amounts t.tx_id a) ∧
    (s2.disputed_transactions = s.disputed_transactions ∨
      (s2.disputed_transactions = s.disputed_transactions ++ [t.tx_id] ∧
        (depositLookup s.deposit_transaction_amounts t.tx_id).isSome = true ∧
        s2.deposit_transaction_amounts = s.deposit_transaction_amounts)) := by
  obtain ⟨ty, cid, txid, am⟩ := t
  cases ty with
  | Deposit =>
    cases am with
    | none => exact absurd h (by simp [applyUnlocked])
    | some a =>
      simp only [applyUnlocked] at h
      injection h with h2
      subst h2
      refine ⟨Or.inr ⟨_, rfl⟩, Or.inr ⟨a, rfl, rfl⟩, Or.inl rfl⟩
  | Withdrawal =>
    cases am with
    | none => exact absurd h (by simp [applyUnlocked])
    | some a =>
      simp only [applyUnlocked] at h
      by_cases hw : b.available - a ≥ 0
      · rw [if_pos hw] at h
        injection h with h2
        subst h2
        exact ⟨Or.inr ⟨_, rfl⟩, Or.inl rfl, Or.inl rfl⟩
      · rw [if_neg hw] at h
        injection h with h2
        subst h2
        exact ⟨Or.inl rfl, Or.inl rfl, Or.inl rfl⟩
  | Dispute =>
    simp only [applyUnlocked] at h
    cases hd : depositLookup s.deposit_transaction_amounts txid with
    | some a =>
      rw [hd] at h
      injection h with h2
      subst h2
      exact ⟨Or.inr ⟨_, rfl⟩, Or.inl rfl, Or.inr ⟨rfl, by simp [hd], rfl⟩⟩
    | none =>
      rw [hd] at h
      injection h with h2
      subst h2
      exact ⟨Or.inl rfl, Or.inl rfl, Or.inl rfl⟩
  | Resolve =>
    simp only [applyUnlocked] at h
    by_cases hc : s.disputed_transactions.contains txid
    · rw [if_pos hc] at h
      cases hd : depositLookup s.deposit_transaction_amounts txid with
      | some a =>
        rw [hd] at h
        injection h with h2
        subst h2
        exact ⟨Or.inr ⟨_, rfl⟩, Or.inl rfl, Or.inl rfl⟩
      | none =>
        rw [hd] at h
        injection h with h2
        subst h2
        exact ⟨Or.inl rfl, Or.inl rfl, Or.inl rfl⟩
    · rw [if_neg hc] at h
      injection h with h2
      subst h2
      exact ⟨Or.inl rfl, Or.inl rfl, Or.inl rfl⟩
  | Chargeback =>
    simp only [applyUnlocked] at h
    by_cases hc : s.disputed_transactions.contains txid
    · rw [if_pos hc] at h
      cases hd : depositLookup s.deposit_transaction_amounts txid with
      | some a =>
        rw [hd] at h
        injection h with h2
        subst h2
        exact ⟨Or.inr ⟨_, rfl⟩, Or.inl rfl, Or.inl rfl⟩
      | none =>
        rw [hd] at h
        injection h with h2
        subst h2
        exact ⟨Or.inl rfl, Or.inl rfl, Or.inl rfl⟩
    · rw [if_neg hc] at h
      injection h with h2
      subst h2
      exact ⟨Or.inl rfl, Or.inl rfl, Or.inl rfl⟩

/-- The locked-account short-circuit (src/main.rs lines 53-55): a record for a
locked account leaves the whole engine state untouched and raises no error. -/
theorem applyTransaction_locked (s : EngineState) (t : Transaction) (b : AccountBalance)
    (hb : getAccount s.account_balances t.client_id = some b) (hl : b.locked = true) :
    applyTransaction s t = .ok s := by
  simp [applyTransaction, hb, hl]

theorem applyTransaction_ok_cases (s : EngineState) (t : Transaction) (s2 : EngineState)
    (h : applyTransaction s t = .ok s2) :
    (s2.account_balances = s.account_balances ∨
      ∃ v, s2.account_balances = setAccount s.account_balances t.client_id v) ∧
    (s2.deposit_transaction_amounts = s.deposit_transaction_amounts ∨
      ∃ a, t.amount = some a ∧
        s2.deposit_transaction_amounts = depositInsert s.deposit_transaction_amounts t.tx_id a) ∧
    (s2.disputed_transactions = s.disputed_transactions ∨
      (s2.disputed_transactions = s.disputed_transactions ++ [t.tx_id] ∧
        (depositLookup s.deposit_transaction_amounts t.tx_id).isSome = true ∧
        s2.deposit_transaction_amounts = s.deposit_transaction_amounts)) := by
  cases hg : getAccount s.account_balances t.client_id with
  | some b =>
    by_cases hl : b.locked = true
    · rw [applyTransaction_locked s t b hg hl] at h
      injection h with h2
      subst h2
      exact ⟨Or.inl rfl, Or.inl rfl, Or.inl rfl⟩
    · simp only [applyTransaction, hg, if_neg hl] at h
      exact applyUnlocked_ok_cases s t b s.account_balances s2 h
  | none =>
    simp only [applyTransaction, hg] at h
    have hc := applyUnlocked_ok_cases s t ⟨t.client_id, 0, 0, false⟩
      (setAccount s.account_balances t.client_id ⟨t.client_id, 0, 0, false⟩) s2 h
    refine ⟨?_, hc.2.1, hc.2.2⟩
    rcases hc.1 with h1 | ⟨v, h1⟩
    · exact Or.inr ⟨_, h1⟩
    · rw [setAccount_setAccount_self] at h1
      exact Or.inr ⟨v, h1⟩

theorem applyTransaction_frame (s : EngineState) (t : Transaction) (s2 : EngineState)
    (c : Nat) (hc : t.client_id ≠ c) (h : applyTransaction s t = .ok s2) :
    getAccount s2.account_balances c = getAccount s.account_balances c := by
  rcases (applyTransaction_ok_cases s t s2 h).1 with h1 | ⟨v, h1⟩
  · rw [h1]
  · rw [h1, getAccount_setAccount_ne _ _ _ _ hc]

theorem applyTransaction_locked_preserved (s : EngineState) (t : Transaction)
    (s2 : EngineState) (c : Nat) (b : AccountBalance)
    (hb : getAccount s.account_balances c = some b) (hl : b.locked = true)
    (h : applyTransaction s t = .ok s2) :
    getAccount s2.account_balances c = some b := by
  by_cases hc : t.client_id = c
  · subst hc
    rw [applyTransaction_locked s t b hb hl] at h
    injection h with h2
    subst h2
    exact hb
  · rw [applyTransaction_frame s t s2 c hc h]
    exact hb

theorem processTransactions_locked_preserved (ts : List Transaction) (s : EngineState)
    (s2 : EngineState) (c : Nat) (b : AccountBalance)
    (hb : getAccount s.account_balances c = some b) (hl : b.locked = true)
    (h : processTransactions s ts = .ok s2) :
    getAccount s2.account_balances c = some b := by
  induction ts generalizing s with
  | nil =>
    simp only [processTransactions] at h
    injection h with h2
    subst h2
    exact hb
  | cons t rest ih =>
    simp only [processTransactions] at h
    cases ha : applyTransaction s t with
    | ok s1 =>
      rw [ha] at h
      exact ih s1 (applyTransaction_locked_preserved s t s1 c b hb hl ha) h
    | error e =>
      rw [ha] at h
      exact absurd h (by simp)

theorem applyTransaction_keys_mono (s : EngineState) (t : Transaction) (s2 : EngineState)
    (c : Nat) (hc : c ∈ outputClients s) (h : applyTransaction s t = .ok s2) :
    c ∈ outputClients s2 := by
  rcases (applyTransaction_ok_cases s t s2 h).1 with h1 | ⟨v, h1⟩
  · unfold outputClients
    rw [h1]
    exact hc
  · unfold outputClients
    rw [h1]
    exact keys_setAccount_mono _ _ _ _ hc

theorem processTransactions_keys_mono (ts : List Transaction) (s : EngineState)
    (s2 : EngineState) (c : Nat) (hc : c ∈ outputClients s)
    (h : processTransactions s ts = .ok s2) : c ∈ outputClients s2 := by
  induction ts generalizing s with
  | nil =>
    simp only [processTransactions] at h
    injection h with h2
    subst h2
    exact hc
  | cons t rest ih =>
    simp only [processTransactions] at h
    cases ha : applyTransaction s t with
    | ok s1 =>
      rw [ha] at h
      exact ih s1 (applyTransaction_keys_mono s t s1 c hc ha) h
    | error e =>
      rw [ha] at h
      exact absurd h (by simp)
/-! ### Claim theorems -/

/-- C1: once an account is locked, every further record for that client is a
total no-op (state unchanged, no error — even a Deposit or Withdrawal with a
missing amount), and no input sequence ever changes the table entry of that account
again, so `locked` never returns to `false`. -/
theorem locked_account_is_terminal_noop (s : EngineState) (c : Nat) (b : AccountBalance)
    (hb : getAccount s.account_balances c = some b) (hl : b.locked = true) :
    (∀ t : Transaction, t.client_id = c → applyTransaction s t = .ok s) ∧
    (∀ ts s2, processTransactions s ts = .ok s2 →
      getAccount s2.account_balances c = some b) := by
  constructor
  · intro t htc
    exact applyTransaction_locked s t b (htc ▸ hb) hl
  · intro ts s2 h
    exact processTransactions_locked_preserved ts s s2 c b hb hl h

/-- C2: a Dispute on an unlocked account is ignored when `tx_id` is not in the
deposit index; when the index maps `tx_id` to `a`, available drops by `a`,
held rises by `a` (no sufficiency check), and `tx_id` joins the disputed
set. -/
theorem dispute_semantics (s : EngineState) (t : Transaction) (b : AccountBalance)
    (ht : t.tx_type = .Dispute)
    (hb : getAccount s.account_balances t.client_id = some b)
    (hl : b.locked = false) :
    (depositLookup s.deposit_transaction_amounts t.tx_id = none →
      applyTransaction s t = .ok s) ∧
    (∀ a, depositLookup s.deposit_transaction_amounts t.tx_id = some a →
      applyTransaction s t =
        .ok ⟨setAccount s.account_balances t.client_id
               { b with available := b.available - a, held := b.held + a },
             s.deposit_transaction_amounts,
             s.disputed_transactions ++ [t.tx_id]⟩) := by
  have hnl : ¬ b.locked = true := by simp [hl]
  constructor
  · intro hd
    simp only [applyTransaction, hb, if_neg hnl, applyUnlocked, ht, hd]
  · intro a hd
    simp only [applyTransaction, hb, if_neg hnl, applyUnlocked, ht, hd]

/-- C3: Resolve never removes `tx_id` from the disputed set; on an unlocked
account, every Resolve of a disputed `tx_id` whose deposit amount is `a`
re-applies the full adjustment `available += a`, `held -= a`, leaving the
disputed set (and deposit index) unchanged — so repeated Resolves stack. -/
theorem resolve_semantics (s : EngineState) (t : Transaction) (b : AccountBalance)
    (ht : t.tx_type = .Resolve)
    (hb : getAccount s.account_balances t.client_id = some b)
    (hl : b.locked = false)
    (hd : s.disputed_transactions.contains t.tx_id = true)
    (a : Rat) (ha : depositLookup s.deposit_transaction_amounts t.tx_id = some a) :
    applyTransaction s t =
      .ok ⟨setAccount s.account_balances t.client_id
             { b with available := b.available + a, held := b.held - a },
           s.deposit_transaction_amounts, s.disputed_transactions⟩ := by
  have hnl : ¬ b.locked = true := by simp [hl]
  simp only [applyTransaction, hb, if_neg hnl, applyUnlocked, ht, hd, if_true, ha]

/-- C4: a Chargeback on an unlocked account whose `tx_id` is disputed and maps
to amount `a` drops `held` by `a`, sets `locked := true`, and leaves
`available` (and the deposit index and disputed set) unchanged. -/
theorem chargeback_semantics (s : EngineState) (t : Transaction) (b : AccountBalance)
    (ht : t.tx_type = .Chargeback)
    (hb : getAccount s.account_balances t.client_id = some b)
    (hl : b.locked = false)
    (hd : s.disputed_transactions.contains t.tx_id = true)
    (a : Rat) (ha : depositLookup s.deposit_transaction_amounts t.tx_id = some a) :
    applyTransaction s t =
      .ok ⟨setAccount s.account_balances t.client_id
             { b with held := b.held - a, locked := true },
           s.deposit_transaction_amounts, s.disputed_transactions⟩ := by
  have hnl : ¬ b.locked = true := by simp [hl]
  simp only [applyTransaction, hb, if_neg hnl, applyUnlocked, ht, hd, if_true, ha]

/-- C5: a Withdrawal with an amount on an unlocked account commits
`available -= amount` when `available - amount ≥ 0` and changes nothing else;
otherwise it is a complete no-op with no error. -/
theorem withdrawal_semantics (s : EngineState) (t : Transaction) (b : AccountBalance)
    (amt : Rat) (ht : t.tx_type = .Withdrawal) (ha : t.amount = some amt)
    (hb : getAccount s.account_balances t.client_id = some b)
    (hl : b.locked = false) :
    (b.available - amt ≥ 0 →
      applyTransaction s t =
        .ok ⟨setAccount s.account_balances t.client_id
               { b with available := b.available - amt },
             s.deposit_transaction_amounts, s.disputed_transactions⟩) ∧
    (¬ b.available - amt ≥ 0 → applyTransaction s t = .ok s) := by
  have hnl : ¬ b.locked = true := by simp [hl]
  constructor
  · intro hw
    simp only [applyTransaction, hb, if_neg hnl, applyUnlocked, ht, ha, if_pos hw]
  · intro hw
    simp only [applyTransaction, hb, if_neg hnl, applyUnlocked, ht, ha, if_neg hw]

/-- C6: a Deposit with an amount on an unlocked account raises `available` by
exactly the amount, leaves `held`, `locked` and the disputed set unchanged,
and afterwards the deposit index maps `tx_id` to that amount, overwriting any
prior entry for the same `tx_id` while all other keys are untouched. -/
theorem deposit_semantics (s : EngineState) (t : Transaction) (b : AccountBalance)
    (amt : Rat) (ht : t.tx_type = .Deposit) (ha : t.amount = some amt)
    (hb : getAccount s.account_balances t.client_id = some b)
    (hl : b.locked = false) :
    applyTransaction s t =
      .ok ⟨setAccount s.account_balances t.client_id
             { b with available := b.available + amt },
           depositInsert s.deposit_transaction_amounts t.tx_id amt,
           s.disputed_transactions⟩ ∧
    depositLookup (depositInsert s.deposit_transaction_amounts t.tx_id amt) t.tx_id
      = some amt ∧
    (∀ tx2, t.tx_id ≠ tx2 →
      depositLookup (depositInsert s.deposit_transaction_amounts t.tx_id amt) tx2 =
        depositLookup s.deposit_transaction_amounts tx2) := by
  have hnl : ¬ b.locked = true := by simp [hl]
  refine ⟨?_, depositLookup_depositInsert_self _ _ _, ?_⟩
  · simp only [applyTransaction, hb, if_neg hnl, applyUnlocked, ht, ha]
  · intro tx2 htx
    exact depositLookup_depositInsert_ne _ _ _ _ htx

theorem locked_account_is_terminal_noop_witness :
    getAccount sLockedExample.account_balances 1 = some ⟨1, 0, 0, true⟩ ∧
    applyTransaction sLockedExample ⟨.Deposit, 1, 2, none⟩ = .ok sLockedExample ∧
    getAccount sLockedExample.account_balances 1 = some ⟨1, 0, 0, true⟩ := by
  have h := locked_account_is_terminal_noop sLockedExample 1 ⟨1, 0, 0, true⟩ rfl rfl
  exact ⟨rfl, h.1 ⟨.Deposit, 1, 2, none⟩ rfl,
    h.2 [⟨.Withdrawal, 1, 3, none⟩] sLockedExample rfl⟩

theorem dispute_semantics_witness :
    getAccount sOneDeposit.account_balances 1 = some ⟨1, 5, 0, false⟩ ∧
    applyTransaction sOneDeposit ⟨.Dispute, 1, 9, none⟩ = .ok sOneDeposit ∧
    applyTransaction sOneDeposit ⟨.Dispute, 1, 1, none⟩ =
      .ok ⟨[(1, ⟨1, 0, 5, false⟩)], [(1, 5)], [1]⟩ := by
  refine ⟨rfl, ?_, ?_⟩
  · exact (dispute_semantics sOneDeposit ⟨.Dispute, 1, 9, none⟩ ⟨1, 5, 0, false⟩
      rfl rfl rfl).1 rfl
  · have h := (dispute_semantics sOneDeposit ⟨.Dispute, 1, 1, none⟩ ⟨1, 5, 0, false⟩
      rfl rfl rfl).2 5 rfl
    rw [h]
    norm_num [sOneDeposit, setAccount]

theorem resolve_semantics_witness :
    processTransactions initialState
        [⟨.Deposit, 1, 1, some 1⟩, ⟨.Dispute, 1, 1, none⟩, ⟨.Resolve, 1, 1, none⟩]
      = .ok sResolvedOnce ∧
    applyTransaction sResolvedOnce ⟨.Resolve, 1, 1, none⟩ =
      .ok ⟨[(1, ⟨1, 2, -1, false⟩)], [(1, 1)], [1]⟩ := by
  refine ⟨by norm_num [processTransactions, applyTransaction, applyUnlocked, getAccount,
    setAccount, depositInsert, depositLookup, initialState, sResolvedOnce], ?_⟩
  have h := resolve_semantics sResolvedOnce ⟨.Resolve, 1, 1, none⟩ ⟨1, 1, 0, false⟩
    rfl rfl rfl rfl 1 rfl
  rw [h]
  norm_num [sResolvedOnce, setAccount]

theorem chargeback_semantics_witness :
    processTransactions initialState
        [⟨.Deposit, 1, 1, some 1⟩, ⟨.Dispute, 1, 1, none⟩]
      = .ok sDisputedExample ∧
    applyTransaction sDisputedExample ⟨.Chargeback, 1, 1, none⟩ =
      .ok ⟨[(1, ⟨1, 0, 0, true⟩)], [(1, 1)], [1]⟩ := by
  refine ⟨by norm_num [processTransactions, applyTransaction, applyUnlocked, getAccount,
    setAccount, depositInsert, depositLookup, initialState, sDisputedExample], ?_⟩
  have h := chargeback_semantics sDisputedExample ⟨.Chargeback, 1, 1, none⟩ ⟨1, 0, 1, false⟩
    rfl rfl rfl rfl 1 rfl
  rw [h]
  norm_num [sDisputedExample, setAccount]

theorem withdrawal_semantics_witness :
    ((5 : Rat) - 2 ≥ 0) ∧
    applyTransaction sOneDeposit ⟨.Withdrawal, 1, 2, some 2⟩ =
      .ok ⟨[(1, ⟨1, 3, 0, false⟩)], [(1, 5)], []⟩ ∧
    ¬ ((5 : Rat) - 7 ≥ 0) ∧
    applyTransaction sOneDeposit ⟨.Withdrawal, 1, 2, some 7⟩ = .ok sOneDeposit := by
  refine ⟨by norm_num, ?_, by norm_num, ?_⟩
  · have h := (withdrawal_semantics sOneDeposit ⟨.Withdrawal, 1, 2, some 2⟩ ⟨1, 5, 0, false⟩
      2 rfl rfl rfl rfl).1 (by norm_num)
    rw [h]
    norm_num [sOneDeposit, setAccount]
  · exact (withdrawal_semantics sOneDeposit ⟨.Withdrawal, 1, 2, some 7⟩ ⟨1, 5, 0, false⟩
      7 rfl rfl rfl rfl).2 (by norm_num)

theorem deposit_semantics_witness :
    applyTransaction sOneDeposit ⟨.Deposit, 1, 1, some 3⟩ =
      .ok ⟨[(1, ⟨1, 8, 0, false⟩)], [(1, 3)], []⟩ ∧
    depositLookup (depositInsert sOneDeposit.deposit_transaction_amounts 1 3) 1
      = some 3 := by
  have h := deposit_semantics sOneDeposit ⟨.Deposit, 1, 1, some 3⟩ ⟨1, 5, 0, false⟩
    3 rfl rfl rfl rfl
  refine ⟨?_, h.2.1⟩
  rw [h.1]
  norm_num [sOneDeposit, setAccount, depositInsert]
theorem applyUnlocked_error_iff (s : EngineState) (t : Transaction) (b : AccountBalance)
    (base : List (Nat × AccountBalance)) (e : TransactionErrorType) :
    applyUnlocked s t b base = .error e ↔
      (t.amount = none ∧
       ((t.tx_type = .Deposit ∧ e = .NoDepositAmount) ∨
        (t.tx_type = .Withdrawal ∧ e = .NoWithdrawalAmount))) := by
  obtain ⟨ty, cid, txid, am⟩ := t
  cases ty with
  | Deposit =>
    cases am with
    | none => simp [applyUnlocked, eq_comm]
    | some a => simp [applyUnlocked]
  | Withdrawal =>
    cases am with
    | none => simp [applyUnlocked, eq_comm]
    | some a =>
      simp only [applyUnlocked]
      split <;> simp
  | Dispute =>
    simp only [applyUnlocked]
    split <;> simp
  | Resolve =>
    simp only [applyUnlocked]
    split
    · split <;> simp
    · simp
  | Chargeback =>
    simp only [applyUnlocked]
    split
    · split <;> simp
    · simp

/-- C7: processing a record returns an error exactly when it is a Deposit or
Withdrawal with no amount on an account that is not locked; the error
kind distinguishes the two, and an error aborts the rest of the stream
immediately. All other anomalies produce `.ok`. -/
theorem error_iff_missing_amount (s : EngineState) (t : Transaction) :
    (∀ e, applyTransaction s t = .error e ↔
      ((∀ b, getAccount s.account_balances t.client_id = some b → b.locked = false) ∧
       t.amount = none ∧
       ((t.tx_type = .Deposit ∧ e = .NoDepositAmount) ∨
        (t.tx_type = .Withdrawal ∧ e = .NoWithdrawalAmount)))) ∧
    (∀ e ts, applyTransaction s t = .error e →
      processTransactions s (t :: ts) = .error e) := by
  constructor
  · intro e
    cases hg : getAccount s.account_balances t.client_id with
    | some b =>
      by_cases hl : b.locked = true
      · rw [applyTransaction_locked s t b hg hl]
        constructor
        · intro hcontra
          exact absurd hcontra (by simp)
        · rintro ⟨hall, -⟩
          have hfalse := hall b rfl
          rw [hl] at hfalse
          exact absurd hfalse (by simp)
      · simp only [applyTransaction, hg, if_neg hl]
        rw [applyUnlocked_error_iff]
        constructor
        · rintro ⟨h1, h2⟩
          refine ⟨?_, h1, h2⟩
          intro b2 hb2
          injection hb2 with hbe
          subst hbe
          exact Bool.eq_false_iff.mpr hl
        · rintro ⟨-, h2, h3⟩
          exact ⟨h2, h3⟩
    | none =>
      simp only [applyTransaction, hg]
      rw [applyUnlocked_error_iff]
      constructor
      · rintro ⟨h1, h2⟩
        refine ⟨?_, h1, h2⟩
        intro b2 hb2
        exact Option.noConfusion hb2
      · rintro ⟨-, h2, h3⟩
        exact ⟨h2, h3⟩
  · intro e ts h
    simp only [processTransactions, h]

theorem error_iff_missing_amount_witness :
    processTransactions initialState [⟨.Deposit, 1, 1, none⟩] = .error .NoDepositAmount ∧
    applyTransaction initialState ⟨.Withdrawal, 1, 1, none⟩ =
      .error .NoWithdrawalAmount := by
  have h1 := error_iff_missing_amount initialState ⟨.Deposit, 1, 1, none⟩
  have h2 := error_iff_missing_amount initialState ⟨.Withdrawal, 1, 1, none⟩
  have e1 : applyTransaction initialState ⟨.Deposit, 1, 1, none⟩ = .error .NoDepositAmount :=
    (h1.1 _).mpr ⟨fun b hb => Option.noConfusion hb, rfl, Or.inl ⟨rfl, rfl⟩⟩
  exact ⟨h1.2 _ [] e1,
    (h2.1 _).mpr ⟨fun b hb => Option.noConfusion hb, rfl, Or.inr ⟨rfl, rfl⟩⟩⟩
theorem disputedCovered_step (s : EngineState) (t : Transaction) (s2 : EngineState)
    (h : applyTransaction s t = .ok s2) (hs : DisputedCovered s) :
    DisputedCovered s2 := by
  obtain ⟨-, hdep, hdisp⟩ := applyTransaction_ok_cases s t s2 h
  intro tx htx
  rcases hdisp with hd | ⟨hd, hcov, hdep2⟩
  · rw [hd] at htx
    rcases hdep with he | ⟨a, -, he⟩
    · rw [he]
      exact hs tx htx
    · rw [he]
      by_cases htxe : t.tx_id = tx
      · subst htxe
        rw [depositLookup_depositInsert_self]
        rfl
      · rw [depositLookup_depositInsert_ne _ _ _ _ htxe]
        exact hs tx htx
  · rw [hdep2]
    rw [hd] at htx
    rcases List.mem_append.mp htx with h1 | h1
    · exact hs tx h1
    · have : tx = t.tx_id := by simpa using h1
      subst this
      exact hcov

theorem processTransactions_disputedCovered (ts : List Transaction) (s s2 : EngineState)
    (h : processTransactions s ts = .ok s2) (hs : DisputedCovered s) :
    DisputedCovered s2 := by
  induction ts generalizing s with
  | nil =>
    simp only [processTransactions] at h
    injection h with h2
    subst h2
    exact hs
  | cons t rest ih =>
    simp only [processTransactions] at h
    cases ha : applyTransaction s t with
    | ok s1 =>
      rw [ha] at h
      exact ih s1 h (disputedCovered_step s t s1 ha hs)
    | error e =>
      rw [ha] at h
      exact absurd h (by simp)

/-- C8: in every reachable state, every disputed `tx_id` still has an entry in
the deposit index; hence the lookup-failure fallback branches of Resolve and
Chargeback (which require `tx_id` to be disputed first) can never run. -/
theorem reachable_disputed_covered (s : EngineState) (h : Reachable s) :
    DisputedCovered s ∧
    ∀ t : Transaction, (t.tx_type = .Resolve ∨ t.tx_type = .Chargeback) →
      s.disputed_transactions.contains t.tx_id = true →
      depositLookup s.deposit_transaction_amounts t.tx_id ≠ none := by
  obtain ⟨ts, hts⟩ := h
  have hc : DisputedCovered s := by
    refine processTransactions_disputedCovered ts initialState s hts ?_
    intro tx htx
    simp [initialState] at htx
  refine ⟨hc, ?_⟩
  intro t _ hmem hnone
  have hsome := hc t.tx_id (by simpa using hmem)
  rw [hnone] at hsome
  exact absurd hsome (by simp)

theorem reachable_disputed_covered_witness :
    Reachable sDisputedExample ∧ DisputedCovered sDisputedExample := by
  have hr : Reachable sDisputedExample :=
    ⟨[⟨.Deposit, 1, 1, some 1⟩, ⟨.Dispute, 1, 1, none⟩],
      by norm_num [processTransactions, applyTransaction, applyUnlocked, getAccount,
        setAccount, depositInsert, depositLookup, initialState, sDisputedExample]⟩
  exact ⟨hr, (reachable_disputed_covered sDisputedExample hr).1⟩
theorem mem_keys_of_getAccount (m : List (Nat × AccountBalance)) (c : Nat)
    (h : getAccount m c ≠ none) : c ∈ m.map Prod.fst := by
  by_contra hc
  exact h ((getAccount_eq_none_iff m c).mpr hc)

/-- C9: a record for a previously unseen client first inserts a fresh account
`⟨client, 0, 0, false⟩` into the table (processing then proceeds from that
enlarged table, before the kind is inspected), the client remains in the final
output through any further successful processing, and when the record is
otherwise a no-op (Dispute/Resolve/Chargeback on an unknown `tx_id`, or an
insufficient-funds Withdrawal) the only state change is that insertion. -/
theorem fresh_account_creation (s : EngineState) (t : Transaction) (s2 : EngineState)
    (hfresh : getAccount s.account_balances t.client_id = none)
    (h : applyTransaction s t = .ok s2) :
    applyTransaction s t =
      applyUnlocked s t ⟨t.client_id, 0, 0, false⟩
        (setAccount s.account_balances t.client_id ⟨t.client_id, 0, 0, false⟩) ∧
    t.client_id ∈ outputClients s2 ∧
    (∀ ts s3, processTransactions s2 ts = .ok s3 → t.client_id ∈ outputClients s3) ∧
    ((((t.tx_type = .Dispute ∨ t.tx_type = .Resolve ∨ t.tx_type = .Chargeback) ∧
        depositLookup s.deposit_transaction_amounts t.tx_id = none) ∨
      (t.tx_type = .Withdrawal ∧ ∃ amt, t.amount = some amt ∧ ¬ (0:Rat) - amt ≥ 0)) →
      s2 = ⟨setAccount s.account_balances t.client_id ⟨t.client_id, 0, 0, false⟩,
            s.deposit_transaction_amounts, s.disputed_transactions⟩) := by
  have hdef : applyTransaction s t =
      applyUnlocked s t ⟨t.client_id, 0, 0, false⟩
        (setAccount s.account_balances t.client_id ⟨t.client_id, 0, 0, false⟩) := by
    simp only [applyTransaction, hfresh]
  have hmem : t.client_id ∈ outputClients s2 := by
    rw [hdef] at h
    rcases (applyUnlocked_ok_cases _ _ _ _ _ h).1 with h1 | ⟨v, h1⟩ <;>
      unfold outputClients <;> rw [h1]
    · exact mem_keys_of_getAccount _ _ (by rw [getAccount_setAccount_self]; simp)
    · exact mem_keys_of_getAccount _ _ (by rw [getAccount_setAccount_self]; simp)
  refine ⟨hdef, hmem, ?_, ?_⟩
  · intro ts s3 h3
    exact processTransactions_keys_mono ts s2 s3 t.client_id hmem h3
  · intro hnoop
    rw [hdef] at h
    rcases hnoop with ⟨hty, hlook⟩ | ⟨hty, amt, ham, hneg⟩
    · rcases hty with hty | hty | hty
      · simp only [applyUnlocked, hty, hlook] at h
        injection h with h2
        exact h2.symm
      · simp only [applyUnlocked, hty] at h
        by_cases hc : s.disputed_transactions.contains t.tx_id
        · rw [if_pos hc, hlook] at h
          injection h with h2
          exact h2.symm
        · rw [if_neg hc] at h
          injection h with h2
          exact h2.symm
      · simp only [applyUnlocked, hty] at h
        by_cases hc : s.disputed_transactions.contains t.tx_id
        · rw [if_pos hc, hlook] at h
          injection h with h2
          exact h2.symm
        · rw [if_neg hc] at h
          injection h with h2
          exact h2.symm
    · simp only [applyUnlocked, hty, ham] at h
      rw [if_neg hneg] at h
      injection h with h2
      exact h2.symm

theorem fresh_account_creation_witness :
    getAccount initialState.account_balances 7 = none ∧
    ((7 : Nat) ∈ outputClients ⟨[(7, ⟨7, 0, 0, false⟩)], [], []⟩) ∧
    (⟨[(7, ⟨7, 0, 0, false⟩)], [], []⟩ : EngineState) =
      ⟨setAccount initialState.account_balances 7 ⟨7, 0, 0, false⟩,
        initialState.deposit_transaction_amounts, initialState.disputed_transactions⟩ := by
  have happ : applyTransaction initialState ⟨.Dispute, 7, 42, none⟩ =
      .ok ⟨[(7, ⟨7, 0, 0, false⟩)], [], []⟩ := rfl
  have h := fresh_account_creation initialState ⟨.Dispute, 7, 42, none⟩
    ⟨[(7, ⟨7, 0, 0, false⟩)], [], []⟩ rfl happ
  exact ⟨rfl, h.2.1, h.2.2.2 (Or.inl ⟨Or.inl rfl, rfl⟩)⟩

/-- C10: Dispute never compares the client of the record with the client of
the originating deposit — the deposit index stores amounts only. A Dispute by
one client referencing a deposit of amount `a` made by another client moves
the funds of the disputing client itself (`available -= a`, `held += a`) and
leaves the account of the depositing client unchanged. -/
theorem dispute_ignores_client (s : EngineState) (t : Transaction) (b2 : AccountBalance)
    (c1 : Nat) (ht : t.tx_type = .Dispute)
    (hb : getAccount s.account_balances t.client_id = some b2)
    (hl : b2.locked = false)
    (a : Rat) (ha : depositLookup s.deposit_transaction_amounts t.tx_id = some a)
    (hne : t.client_id ≠ c1) :
    applyTransaction s t =
      .ok ⟨setAccount s.account_balances t.client_id
             { b2 with available := b2.available - a, held := b2.held + a },
           s.deposit_transaction_amounts,
           s.disputed_transactions ++ [t.tx_id]⟩ ∧
    getAccount (setAccount s.account_balances t.client_id
        { b2 with available := b2.available - a, held := b2.held + a }) c1 =
      getAccount s.account_balances c1 := by
  have hnl : ¬ b2.locked = true := by simp [hl]
  refine ⟨?_, getAccount_setAccount_ne _ _ _ _ hne⟩
  simp only [applyTransaction, hb, if_neg hnl, applyUnlocked, ht, ha]

theorem dispute_ignores_client_witness :
    applyTransaction sTwoClients ⟨.Dispute, 2, 1, none⟩ =
      .ok ⟨[(1, ⟨1, 5, 0, false⟩), (2, ⟨2, -5, 5, false⟩)], [(1, 5)], [1]⟩ ∧
    getAccount (setAccount sTwoClients.account_balances 2 ⟨2, 0 - 5, 0 + 5, false⟩) 1 =
      getAccount sTwoClients.account_balances 1 := by
  have h := dispute_ignores_client sTwoClients ⟨.Dispute, 2, 1, none⟩ ⟨2, 0, 0, false⟩ 1
    rfl rfl rfl 5 rfl (by decide)
  refine ⟨?_, h.2⟩
  rw [h.1]
  norm_num [sTwoClients, setAccount]
